import Mathlib

/-!
Shallow embedding of the bounded contact crawler of Crushbase-Backend
(`src/CronJobs/crawler_processor.py`, `src/DatabaseManager/crawler.py`,
`src/DatabaseManager/accounts.py`, `src/API/app.py`), together with proofs
settling the frozen claims about it.

Conventions of the embedding:
- a JSON contact dict becomes `Contact`; an absent key is `none`;
- the network, the HTML link extraction and the extraction collaborator are
  folded into one oracle `web : String → FetchOutcome` giving, per URL, either
  a transport-level exception or a response (HTTP status, same-host links
  found on the page, and the collaborator/JSON-parse outcome for its blocks);
- the mutable `ContactCrawler` object state and its writes to the session
  store become the record `CrawlState`; store writes are kept as ledgers
  (`progressWrites`, `contactWrites`) so that claims about "every snapshot
  written" can be stated;
- Python `int` depth stays `Int` (the code tests `depth < 0`), page counts
  stay `Nat`.
-/

namespace Crushbase

/-- Contact record parsed from the extraction collaborator's JSON array
(`crawler_processor.py`). `none` models an absent key. -/
structure Contact where
  name : String := ""
  email : Option String := none
  phone : Option String := none
  role : Option String := none
  deriving DecidableEq, Repr

/-- Progress snapshot as written by `_update_progress` and by the final
completed update (`crawler_processor.py` lines 48-52 and 172-176). -/
structure Progress where
  pages_visited : Nat
  total_contacts : Nat
  unique_contacts : Nat
  deriving DecidableEq, Repr

/-- Outcome of the extraction-collaborator call plus JSON parsing for one
page (`crawler_processor.py` lines 103-112): the payload may fail to parse
(`json.JSONDecodeError`), parse to a non-list value (silently ignored by the
code), or parse to a list of contact records. -/
inductive ExtractOutcome where
  | parseError (msg : String)
  | nonList
  | contactList (cs : List Contact)
  deriving DecidableEq, Repr

/-- What one successful `requests.get` yields for a URL: the HTTP status code
of the response, the same-host links `get_links` finds in its markup, and the
extraction outcome for its contact blocks. -/
structure PageData where
  status : Nat
  links : List String
  extraction : ExtractOutcome
  deriving DecidableEq, Repr

/-- Result of attempting to fetch one URL: a transport-level exception
(anything raised inside the `try` of `ContactCrawler.crawl`, caught at lines
116-119) or a response. -/
inductive FetchOutcome where
  | transportError (msg : String)
  | page (d : PageData)
  deriving DecidableEq, Repr

/-- The mutable state of one `ContactCrawler` instance, plus ledgers of the
writes it issues to the session store. `visited` is the insertion-ordered
contents of the Python set `self.visited` (the code only adds a URL after
checking non-membership). `log_messages` is `self.log_messages` with keys as
the integers the code stringifies. -/
structure CrawlState where
  visited : List String := []
  all_contacts : List Contact := []
  log_counter : Nat := 0
  log_messages : List (Nat × String) := []
  progressWrites : List Progress := []
  contactWrites : List (List Contact) := []
  deriving DecidableEq, Repr

/-- Embedding of `ContactCrawler.log_update` (lines 34-44): increment the
counter, join the messages with a separator, record the entry under the new
counter (both in `self.log_messages` and, via `add_crawler_log`, in the
store; the two coincide, so one list holds both). -/
def log_update (st : CrawlState) (messages : List String) : CrawlState :=
  { st with
    log_counter := st.log_counter + 1,
    log_messages :=
      st.log_messages ++ [(st.log_counter + 1, String.intercalate " | " messages)] }

/-- Emails counted by `_update_progress` (line 51): the distinct raw values of
`contact.get("email", "")` over contacts whose email is truthy, i.e. present
and non-empty — no lower-casing, no trimming. -/
def runningUniqueEmails (contacts : List Contact) : List String :=
  ((contacts.filterMap (fun c => c.email)).filter (fun e => e != "")).dedup

/-- Embedding of `ContactCrawler._update_progress` (lines 46-57): write a
progress snapshot computed from the current state to the session store. -/
def update_progress (st : CrawlState) : CrawlState :=
  { st with
    progressWrites := st.progressWrites ++
      [{ pages_visited := st.visited.length,
         total_contacts := st.all_contacts.length,
         unique_contacts := (runningUniqueEmails st.all_contacts).length }] }

/-- Embedding of `ContactCrawler._update_contacts` (lines 59-65): write the
current accumulated contact list to the session store. -/
def update_contacts (st : CrawlState) : CrawlState :=
  { st with contactWrites := st.contactWrites ++ [st.all_contacts] }

/-- Links of a URL as found by `get_links` on its fetched markup; a URL whose
fetch raises has none. -/
def linksOf (web : String → FetchOutcome) (url : String) : List String :=
  match web url with
  | .transportError _ => []
  | .page d => d.links

mutual

/-- Embedding of `ContactCrawler.crawl` (lines 83-129). Faithful points:
the page bound is checked first with `≥` and logs when hit; the re-visit /
negative-depth guard returns silently; the URL is added to `visited` before
fetching; a transport error logs the prepared log items plus the error and
returns; a JSON parse failure logs only the parse error and returns; a
non-list parse result is silently skipped (no contact append, no store
contact write) but the page still logs, writes progress and recurses; the
HTTP status code of the response is never consulted. -/
def crawl (web : String → FetchOutcome) (maxPages : Nat)
    (st : CrawlState) (url : String) (depth : Int) : CrawlState :=
  if st.visited.length ≥ maxPages then
    log_update st
      ["MaxPagesReached: " ++ toString maxPages ++ " pages reached. Stopping crawl."]
  else if url ∈ st.visited ∨ depth < 0 then st
  else
    let st1 : CrawlState := { st with visited := st.visited ++ [url] }
    match web url with
    | .transportError msg =>
        log_update st1
          ["URL: " ++ url,
           "PagesVisited: " ++ toString st1.visited.length,
           "CumulativeContacts: " ++ toString st1.all_contacts.length,
           "Error: " ++ msg]
    | .page d =>
        match d.extraction with
        | .parseError msg => log_update st1 ["JSON Parse Error: " ++ msg]
        | .nonList =>
            let st3 := log_update st1
              ["URL: " ++ url,
               "PagesVisited: " ++ toString st1.visited.length,
               "CumulativeContacts: " ++ toString st1.all_contacts.length]
            let st4 := update_progress st3
            crawlList web maxPages st4 d.links (depth - 1)
        | .contactList cs =>
            let st2 : CrawlState := { st1 with all_contacts := st1.all_contacts ++ cs }
            let st2b := update_contacts st2
            let st3 := log_update st2b
              ["URL: " ++ url,
               "PagesVisited: " ++ toString st1.visited.length,
               "CumulativeContacts: " ++ toString st2b.all_contacts.length]
            let st4 := update_progress st3
            crawlList web maxPages st4 d.links (depth - 1)
termination_by ((depth + 1).toNat, 0)

/-- Embedding of the `for link in self.get_links(soup, url)` loop at lines
124-129: before each recursive call the page bound is re-checked; hitting it
logs once and breaks (the remaining links are dropped). -/
def crawlList (web : String → FetchOutcome) (maxPages : Nat)
    (st : CrawlState) (links : List String) (depth : Int) : CrawlState :=
  match links with
  | [] => st
  | l :: ls =>
      if st.visited.length ≥ maxPages then
        log_update st
          ["MaxPagesReached: " ++ toString maxPages ++ " pages reached. Stopping further crawl."]
      else
        crawlList web maxPages (crawl web maxPages st l depth) ls depth
termination_by ((depth + 1).toNat, links.length + 1)

end

/-- Model of Python `str.lower()` (ASCII range, the one exercised by email
strings): lower-case every character. -/
def pyLower (s : String) : String := ⟨s.data.map Char.toLower⟩

/-- Model of Python `str.strip()`: drop leading and trailing whitespace. -/
def pyStrip (s : String) : String :=
  ⟨((s.data.dropWhile Char.isWhitespace).reverse.dropWhile Char.isWhitespace).reverse⟩

/-- The normalization `contact["email"].lower().strip()` applied by the
dedup loop of `_run_crawler` (line 151). -/
def pyNormalize (e : String) : String := pyStrip (pyLower e)

/-- Inner loop of the end-of-run deduplication in `_run_crawler` (lines
145-154): walk the accumulated contacts keeping a set of seen normalized
emails; a contact is kept exactly when it has an `email` key whose
lower-cased, trimmed value is non-empty and not yet seen. Contacts without
an `email` key are skipped. -/
def dedupGo : List Contact → List String → List Contact
  | [], _ => []
  | c :: cs, seen =>
      match c.email with
      | some e =>
          let em := pyNormalize e
          if em != "" && !(seen.contains em) then c :: dedupGo cs (em :: seen)
          else dedupGo cs seen
      | none => dedupGo cs seen

/-- The `unique_contacts` list computed at the end of `_run_crawler`. -/
def uniqueContacts (contacts : List Contact) : List Contact :=
  dedupGo contacts []

/-- Normalized email of a contact: the value the dedup loop compares,
`contact["email"].lower().strip()`, when the key is present. -/
def normEmail (c : Contact) : Option String :=
  c.email.map pyNormalize

/-- One crawler session document as persisted under
`crawler_sessions.<session_id>` (`DatabaseManager/crawler.py` lines 17-30
give the initial shape). `logs` keys are the integers the code stringifies. -/
structure Session where
  start_url : String := ""
  depth : Int := 0
  max_pages : Nat := 0
  status : String := "initialized"
  start_time : String := ""
  end_time : Option String := none
  completed_at : Option String := none
  progress : Progress := { pages_visited := 0, total_contacts := 0, unique_contacts := 0 }
  contacts : List Contact := []
  logs : List (Nat × String) := []
  deriving DecidableEq, Repr

/-- Partial update passed to `CrawlerManager.update_crawler_session` (lines
54-57): each present field becomes one dotted-path store write
`crawler_sessions.<sid>.<field> = value`; absent fields are untouched
(Mongo-style merge, never a full-document replace). -/
structure SessionUpdate where
  status : Option String := none
  end_time : Option String := none
  completed_at : Option String := none
  progress : Option Progress := none
  contacts : Option (List Contact) := none
  logs : Option (List (Nat × String)) := none
  deriving DecidableEq, Repr

/-- Apply a partial session update: present fields overwrite, absent fields
keep their previous value. -/
def applySessionUpdate (s : Session) (u : SessionUpdate) : Session :=
  { s with
    status := u.status.getD s.status,
    end_time := match u.end_time with | some t => some t | none => s.end_time,
    completed_at := match u.completed_at with | some t => some t | none => s.completed_at,
    progress := u.progress.getD s.progress,
    contacts := u.contacts.getD s.contacts,
    logs := u.logs.getD s.logs }

/-- The update written on entry to the run (`_run_crawler` lines 135-139):
only the status field. -/
def runningUpdate : SessionUpdate := { status := some "running" }

/-- The update written in the `except` branch of `_run_crawler` (lines
184-188): only the status field; no end time, no other field. -/
def failedUpdate : SessionUpdate := { status := some "failed" }

/-- The final update written on completion (`_run_crawler` lines 165-180):
status, end time, completion time, a progress snapshot recomputed from the
final state with the deduplicated count, the full raw contact list, and the
full log mapping. -/
def completedUpdate (endTime completedAt : String) (st : CrawlState)
    (uniq : List Contact) : SessionUpdate :=
  { status := some "completed",
    end_time := some endTime,
    completed_at := some completedAt,
    progress := some
      { pages_visited := st.visited.length,
        total_contacts := st.all_contacts.length,
        unique_contacts := uniq.length },
    contacts := some st.all_contacts,
    logs := some st.log_messages }

/-- Result of one run: the session document after the terminal update, and
the final in-memory crawler state (whose ledgers record every intermediate
store write). -/
structure RunResult where
  session : Session
  state : CrawlState
  deriving DecidableEq, Repr

/-- Embedding of `ContactCrawler._run_crawler` (lines 131-189) on the happy
path, which in this total embedding is the only path: set status to running,
emit the start log line, run the traversal from the start URL, deduplicate,
emit the final-results log line, and write the completed snapshot. `endTime`
stands for the `datetime.now().isoformat()` strings taken at completion. -/
def run_crawler (web : String → FetchOutcome) (startUrl : String)
    (depth : Int) (maxPages : Nat) (endTime : String) (s0 : Session) : RunResult :=
  let s1 := applySessionUpdate s0 runningUpdate
  let st1 := log_update {}
    ["StartingCrawler from: " ++ startUrl ++ " | InitialDepth: " ++ toString depth
      ++ " | MaxPages: " ++ toString maxPages]
  let st2 := crawl web maxPages st1 startUrl depth
  let uniq := uniqueContacts st2.all_contacts
  let st3 := log_update st2
    ["FinalResults",
     "PagesVisited: " ++ toString st2.visited.length,
     "TotalContacts: " ++ toString st2.all_contacts.length,
     "UniqueContacts: " ++ toString uniq.length]
  let s2 := applySessionUpdate s1 (completedUpdate endTime endTime st3 uniq)
  { session := s2, state := st3 }

/-- Pages within `n` same-host link hops of `u`, following the links the
oracle reports per fetched page (a page whose fetch raises contributes no
links). -/
def reachableWithin (web : String → FetchOutcome) : Nat → String → String → Bool
  | 0, u, v => v == u
  | n + 1, u, v => v == u || (linksOf web u).any (fun w => reachableWithin web n w v)

/-- User document as far as the crawler endpoints read it: the
`crawler_sessions` mapping. -/
structure UserDoc where
  crawler_sessions : List (String × Session) := []
  deriving DecidableEq, Repr

/-- Embedding of `AccountManager.get_user` (`accounts.py` lines 30-41): a
missing user RAISES `ValueError` (modelled as `Except.error` with the code's
message) rather than returning `None`, despite the `Optional` annotation. -/
def get_user (db : String → Option UserDoc) (userId : String) : Except String UserDoc :=
  match db userId with
  | none => .error ("User with ID " ++ userId ++ " not found")
  | some u => .ok u

/-- Embedding of `CrawlerManager.get_crawler_session` (`crawler.py` lines
64-67): read the user (propagating the missing-user exception) and look the
session up, `None` when absent. -/
def get_crawler_session (db : String → Option UserDoc) (userId sessionId : String) :
    Except String (Option Session) :=
  (get_user db userId).map (fun u => u.crawler_sessions.lookup sessionId)

/-- HTTP-level outcome of the crawl result query: 200 with the session,
404 not-found, or 500 with the exception's message. -/
inductive ApiResponse where
  | ok (session : Session)
  | notFound (msg : String)
  | serverError (msg : String)
  deriving DecidableEq, Repr

/-- Embedding of the `/api/crawler/results` handler (`app.py` lines
595-619): a falsy (absent) session gives 404; any exception — including the
`ValueError` raised for a missing owner — is caught by the blanket
`except Exception` and returned as 500 with the exception's message. -/
def get_crawler_results (db : String → Option UserDoc) (userId sessionId : String) :
    ApiResponse :=
  match get_crawler_session db userId sessionId with
  | .error e => .serverError e
  | .ok none => .notFound "Crawler session not found"
  | .ok (some s) => .ok s

/-! Invariants, helper relations and concrete fixtures. -/

/-- Log-ordinal contiguity invariant: the keys of the log mapping are
exactly 1..log_counter, in order. -/
def LogKeysOk (st : CrawlState) : Prop :=
  st.log_messages.map Prod.fst = List.range' 1 st.log_counter

/-- Bookkeeping relation between a crawler state and any state the traversal
can produce from it: visited, contacts and progress-write ledgers only grow;
every new progress write respects the page bound; the visited set stays
below `max` of its old size and the bound; log contiguity is preserved. -/
def StepOk (mp : Nat) (st st' : CrawlState) : Prop :=
  (∃ t, st'.visited = st.visited ++ t) ∧
  (∃ t, st'.all_contacts = st.all_contacts ++ t) ∧
  (∃ t, st'.progressWrites = st.progressWrites ++ t ∧ ∀ p ∈ t, p.pages_visited ≤ mp) ∧
  st'.visited.length ≤ max st.visited.length mp ∧
  (LogKeysOk st → LogKeysOk st')

/-- Two fetch outcomes that differ at most in the HTTP status code of the
response. -/
def sameExceptStatus : FetchOutcome → FetchOutcome → Prop
  | .transportError m1, .transportError m2 => m1 = m2
  | .page d1, .page d2 => d1.links = d2.links ∧ d1.extraction = d2.extraction
  | _, _ => False

def urlA : String := "https://a.test"

def cNoEmail : Contact := { name := "bob", phone := some "5551234" }

def cInvalid : Contact := { name := "x" }

def c6c : Contact := { name := "n", email := some "n@x.com" }

def c10a : Contact := { name := "p", email := some "a@x.com" }

def c10b : Contact := { name := "q", email := some "A@X.com " }

def webTriv : String → FetchOutcome :=
  fun _ => .page { status := 200, links := [], extraction := .contactList [] }

def webC3 : String → FetchOutcome :=
  fun _ => .page { status := 200, links := [], extraction := .contactList [cInvalid] }

def webC6 : String → FetchOutcome :=
  fun _ => .page { status := 404, links := [], extraction := .contactList [c6c] }

def webC10 : String → FetchOutcome :=
  fun _ => .page { status := 200, links := [], extraction := .contactList [c10a, c10b] }

def emptyDb : String → Option UserDoc := fun _ => none

/-! Helper lemmas about the traversal, the dedup loop and the run. -/

theorem stepOk_refl (mp : Nat) (st : CrawlState) : StepOk mp st st :=
  ⟨⟨[], by simp⟩, ⟨[], by simp⟩, ⟨[], by simp⟩, Nat.le_max_left _ _, id⟩

theorem stepOk_trans {mp : Nat} {st1 st2 st3 : CrawlState}
    (h12 : StepOk mp st1 st2) (h23 : StepOk mp st2 st3) : StepOk mp st1 st3 := by
  obtain ⟨⟨v1, hv1⟩, ⟨c1, hc1⟩, ⟨p1, hp1, hb1⟩, hl1, hk1⟩ := h12
  obtain ⟨⟨v2, hv2⟩, ⟨c2, hc2⟩, ⟨p2, hp2, hb2⟩, hl2, hk2⟩ := h23
  refine ⟨⟨v1 ++ v2, by simp [hv2, hv1]⟩, ⟨c1 ++ c2, by simp [hc2, hc1]⟩,
    ⟨p1 ++ p2, by simp [hp2, hp1], ?_⟩, ?_, fun h => hk2 (hk1 h)⟩
  · intro p hp
    rcases List.mem_append.mp hp with h | h
    · exact hb1 p h
    · exact hb2 p h
  · omega

theorem logKeysOk_log_update {st : CrawlState} (h : LogKeysOk st) (msgs : List String) :
    LogKeysOk (log_update st msgs) := by
  unfold LogKeysOk log_update at *
  simp only [List.map_append, List.map_cons, List.map_nil, h]
  rw [List.range'_concat]
  simp [Nat.add_comm]

theorem stepOk_log_update (mp : Nat) (st : CrawlState) (msgs : List String) :
    StepOk mp st (log_update st msgs) :=
  ⟨⟨[], by simp [log_update]⟩, ⟨[], by simp [log_update]⟩, ⟨[], by simp [log_update]⟩,
    by simp [log_update], fun h => logKeysOk_log_update h msgs⟩

theorem stepOk_update_contacts (mp : Nat) (st : CrawlState) :
    StepOk mp st (update_contacts st) :=
  ⟨⟨[], by simp [update_contacts]⟩, ⟨[], by simp [update_contacts]⟩,
    ⟨[], by simp [update_contacts]⟩, by simp [update_contacts],
    fun h => by simpa [LogKeysOk, update_contacts] using h⟩

theorem stepOk_update_progress (mp : Nat) (st : CrawlState)
    (h : st.visited.length ≤ mp) : StepOk mp st (update_progress st) := by
  refine ⟨⟨[], by simp [update_progress]⟩, ⟨[], by simp [update_progress]⟩,
    ⟨_, rfl, ?_⟩, by simp [update_progress],
    fun hk => by simpa [LogKeysOk, update_progress] using hk⟩
  intro p hp
  simp only [List.mem_singleton] at hp
  subst hp
  exact h

theorem stepOk_addVisit (mp : Nat) (st : CrawlState) (url : String)
    (h : st.visited.length < mp) :
    StepOk mp st { st with visited := st.visited ++ [url] } := by
  refine ⟨⟨[url], rfl⟩, ⟨[], by simp⟩, ⟨[], by simp⟩, by simp; omega,
    fun hk => by simpa [LogKeysOk] using hk⟩

theorem stepOk_extendContacts (mp : Nat) (st : CrawlState) (cs : List Contact) :
    StepOk mp st { st with all_contacts := st.all_contacts ++ cs } :=
  ⟨⟨[], by simp⟩, ⟨cs, rfl⟩, ⟨[], by simp⟩, by simp,
    fun hk => by simpa [LogKeysOk] using hk⟩

theorem crawl_stepOk_aux (web : String → FetchOutcome) (mp : Nat) :
    ∀ n : Nat, ∀ d : Int, (d + 1).toNat ≤ n →
      (∀ st url, StepOk mp st (crawl web mp st url d)) ∧
      (∀ st links, StepOk mp st (crawlList web mp st links d)) := by
  intro n
  induction n using Nat.strong_induction_on with
  | _ n IH =>
    intro d hd
    have hc : ∀ st url, StepOk mp st (crawl web mp st url d) := by
      intro st url
      rw [crawl]
      split
      · exact stepOk_log_update mp st _
      · split
        · exact stepOk_refl mp st
        · next h1 h2 =>
          have hlen : st.visited.length < mp := by omega
          have hd0 : ¬ d < 0 := fun hlt => h2 (Or.inr hlt)
          have hIH : ∀ st2 links, StepOk mp st2 (crawlList web mp st2 links (d - 1)) := by
            have hn : 1 ≤ n := by omega
            exact (IH (n - 1) (by omega) (d - 1) (by omega)).2
          have h01 := stepOk_addVisit mp st url hlen
          set st1 : CrawlState := { st with visited := st.visited ++ [url] } with hst1
          have hlen1 : st1.visited.length ≤ mp := by simp [hst1]; omega
          split
          · -- transportError
            exact stepOk_trans h01 (stepOk_log_update mp st1 _)
          · -- page d
            split
            · -- parseError
              exact stepOk_trans h01 (stepOk_log_update mp st1 _)
            · -- nonList
              refine stepOk_trans h01 (stepOk_trans (stepOk_log_update mp st1 _)
                (stepOk_trans (stepOk_update_progress mp _ (by simpa [log_update] using hlen1))
                  (hIH _ _)))
            · -- contactList
              refine stepOk_trans h01 (stepOk_trans (stepOk_extendContacts mp st1 _)
                (stepOk_trans (stepOk_update_contacts mp _)
                  (stepOk_trans (stepOk_log_update mp _ _)
                    (stepOk_trans (stepOk_update_progress mp _ (by
                      simpa [update_contacts, log_update] using hlen1)) (hIH _ _)))))
    refine ⟨hc, ?_⟩
    intro st links
    induction links generalizing st with
    | nil => rw [crawlList]; exact stepOk_refl mp st
    | cons l ls ihl =>
      rw [crawlList]
      split
      · exact stepOk_log_update mp st _
      · exact stepOk_trans (hc st l) (ihl _)

theorem crawl_stepOk (web : String → FetchOutcome) (mp : Nat)
    (st : CrawlState) (url : String) (d : Int) :
    StepOk mp st (crawl web mp st url d) :=
  (crawl_stepOk_aux web mp ((d + 1).toNat) d le_rfl).1 st url

theorem logKeysOk_length {st : CrawlState} (h : LogKeysOk st) :
    st.log_messages.length = st.log_counter := by
  have h2 := congrArg List.length h
  simpa using h2

theorem run_crawler_logs_ok (web : String → FetchOutcome) (startUrl : String)
    (d : Int) (mp : Nat) (t : String) (s0 : Session) :
    LogKeysOk (run_crawler web startUrl d mp t s0).state := by
  have h0 : LogKeysOk ({} : CrawlState) := by simp [LogKeysOk, log_update]
  simp only [run_crawler]
  exact logKeysOk_log_update
    ((crawl_stepOk web mp _ startUrl d).2.2.2.2 (logKeysOk_log_update h0 _)) _

theorem run_crawler_session_logs (web : String → FetchOutcome) (startUrl : String)
    (d : Int) (mp : Nat) (t : String) (s0 : Session) :
    (run_crawler web startUrl d mp t s0).session.logs
      = (run_crawler web startUrl d mp t s0).state.log_messages := by
  simp [run_crawler, applySessionUpdate, completedUpdate]

theorem crawlList_stepOk (web : String → FetchOutcome) (mp : Nat)
    (st : CrawlState) (links : List String) (d : Int) :
    StepOk mp st (crawlList web mp st links d) :=
  (crawl_stepOk_aux web mp ((d + 1).toNat) d le_rfl).2 st links

theorem reachableWithin_self (web : String → FetchOutcome) (n : Nat) (u : String) :
    reachableWithin web n u u = true := by
  cases n <;> simp [reachableWithin]

theorem reachableWithin_step {web : String → FetchOutcome} {n : Nat} {u v l : String}
    (hl : l ∈ linksOf web u) (h : reachableWithin web n l v = true) :
    reachableWithin web (n + 1) u v = true := by
  simp only [reachableWithin, Bool.or_eq_true, List.any_eq_true]
  exact Or.inr ⟨l, hl, h⟩

theorem crawl_reach_aux (web : String → FetchOutcome) (mp : Nat) :
    ∀ n : Nat, ∀ d : Int, (d + 1).toNat ≤ n →
      (∀ st url v, v ∈ (crawl web mp st url d).visited → v ∈ st.visited ∨
         (0 ≤ d ∧ reachableWithin web d.toNat url v = true)) ∧
      (∀ st links v, v ∈ (crawlList web mp st links d).visited → v ∈ st.visited ∨
         (0 ≤ d ∧ ∃ l ∈ links, reachableWithin web d.toNat l v = true)) := by
  intro n
  induction n using Nat.strong_induction_on with
  | _ n IH =>
    intro d hd
    have hc : ∀ st url v, v ∈ (crawl web mp st url d).visited → v ∈ st.visited ∨
        (0 ≤ d ∧ reachableWithin web d.toNat url v = true) := by
      intro st url v hv
      rw [crawl] at hv
      split at hv
      · exact Or.inl (by simpa [log_update] using hv)
      · split at hv
        · exact Or.inl hv
        · next h1 h2 =>
          have hd0 : 0 ≤ d := by omega
          have hurl : reachableWithin web d.toNat url url = true :=
            reachableWithin_self web _ url
          have hnew : ∀ w, w ∈ st.visited ++ [url] →
              w ∈ st.visited ∨ (0 ≤ d ∧ reachableWithin web d.toNat url w = true) := by
            intro w hw
            rcases List.mem_append.mp hw with h | h
            · exact Or.inl h
            · simp only [List.mem_singleton] at h
              subst h
              exact Or.inr ⟨hd0, hurl⟩
          split at hv
          · exact hnew v (by simpa [log_update] using hv)
          · next pd hw =>
            have hlinks : linksOf web url = pd.links := by simp [linksOf, hw]
            split at hv
            · exact hnew v (by simpa [log_update] using hv)
            · -- nonList
              have hIH := (IH (n - 1) (by omega) (d - 1) (by omega)).2
              rcases hIH _ pd.links v hv with hmem | ⟨hd1, l, hl, hr⟩
              · exact hnew v (by simpa [update_progress, log_update] using hmem)
              · refine Or.inr ⟨hd0, ?_⟩
                have heq : d.toNat = (d - 1).toNat + 1 := by omega
                rw [heq]
                exact reachableWithin_step (hlinks ▸ hl) hr
            · -- contactList
              have hIH := (IH (n - 1) (by omega) (d - 1) (by omega)).2
              rcases hIH _ pd.links v hv with hmem | ⟨hd1, l, hl, hr⟩
              · exact hnew v
                  (by simpa [update_progress, log_update, update_contacts] using hmem)
              · refine Or.inr ⟨hd0, ?_⟩
                have heq : d.toNat = (d - 1).toNat + 1 := by omega
                rw [heq]
                exact reachableWithin_step (hlinks ▸ hl) hr
    refine ⟨hc, ?_⟩
    intro st links
    induction links generalizing st with
    | nil =>
      intro v hv
      rw [crawlList] at hv
      exact Or.inl hv
    | cons l ls ihl =>
      intro v hv
      rw [crawlList] at hv
      split at hv
      · exact Or.inl (by simpa [log_update] using hv)
      · rcases ihl _ v hv with hmem | ⟨hd1, l2, hl2, hr⟩
        · rcases hc st l v hmem with h | ⟨hd1, hr⟩
          · exact Or.inl h
          · exact Or.inr ⟨hd1, l, List.mem_cons_self l ls, hr⟩
        · exact Or.inr ⟨hd1, l2, List.mem_cons_of_mem l hl2, hr⟩

theorem crawl_reach (web : String → FetchOutcome) (mp : Nat)
    (st : CrawlState) (url : String) (d : Int) (v : String)
    (hv : v ∈ (crawl web mp st url d).visited) :
    v ∈ st.visited ∨ (0 ≤ d ∧ reachableWithin web d.toNat url v = true) :=
  (crawl_reach_aux web mp ((d + 1).toNat) d le_rfl).1 st url v hv

theorem crawl_visits (web : String → FetchOutcome) (mp : Nat)
    (st : CrawlState) (url : String) (d : Int)
    (h1 : st.visited.length < mp) (h2 : url ∉ st.visited) (h3 : 0 ≤ d) :
    url ∈ (crawl web mp st url d).visited := by
  rw [crawl]
  rw [if_neg (by omega)]
  rw [if_neg (by simp [h2]; omega)]
  split
  · simp [log_update]
  · split
    · simp [log_update]
    · obtain ⟨⟨t, ht⟩, _⟩ := crawlList_stepOk web mp _ _ (d - 1)
      rw [ht]
      exact List.mem_append_left _ (by simp [update_progress, log_update])
    · obtain ⟨⟨t, ht⟩, _⟩ := crawlList_stepOk web mp _ _ (d - 1)
      rw [ht]
      exact List.mem_append_left _
        (by simp [update_progress, log_update, update_contacts])

theorem crawl_transport_frame (web : String → FetchOutcome) (mp : Nat)
    (st : CrawlState) (url : String) (d : Int) (msg : String)
    (hw : web url = .transportError msg) (h1 : st.visited.length < mp)
    (h2 : url ∉ st.visited) (h3 : 0 ≤ d) :
    crawl web mp st url d =
      log_update { st with visited := st.visited ++ [url] }
        ["URL: " ++ url,
         "PagesVisited: " ++ toString (st.visited ++ [url]).length,
         "CumulativeContacts: " ++ toString st.all_contacts.length,
         "Error: " ++ msg] := by
  rw [crawl]
  rw [if_neg (by omega), if_neg (by simp [h2]; omega)]
  rw [hw]

theorem crawlList_cons_unfold (web : String → FetchOutcome) (mp : Nat)
    (st : CrawlState) (l : String) (ls : List String) (d : Int)
    (h : st.visited.length < mp) :
    crawlList web mp st (l :: ls) d = crawlList web mp (crawl web mp st l d) ls d := by
  rw [crawlList]
  rw [if_neg (by omega)]

theorem crawlList_visits_head (web : String → FetchOutcome) (mp : Nat)
    (st : CrawlState) (c : String) (rest : List String) (d : Int)
    (h1 : st.visited.length < mp) (h2 : c ∉ st.visited) (h3 : 0 ≤ d) :
    c ∈ (crawlList web mp st (c :: rest) d).visited := by
  rw [crawlList_cons_unfold web mp st c rest d h1]
  have hmem := crawl_visits web mp st c d h1 h2 h3
  obtain ⟨⟨t, ht⟩, -⟩ := crawlList_stepOk web mp (crawl web mp st c d) rest d
  rw [ht]
  exact List.mem_append_left _ hmem

theorem crawl_status_blind_aux (web1 web2 : String → FetchOutcome) (mp : Nat)
    (hagree : ∀ u, sameExceptStatus (web1 u) (web2 u)) :
    ∀ n : Nat, ∀ d : Int, (d + 1).toNat ≤ n →
      (∀ st url, crawl web1 mp st url d = crawl web2 mp st url d) ∧
      (∀ st links, crawlList web1 mp st links d = crawlList web2 mp st links d) := by
  intro n
  induction n using Nat.strong_induction_on with
  | _ n IH =>
    intro d hd
    have hc : ∀ st url, crawl web1 mp st url d = crawl web2 mp st url d := by
      intro st url
      rw [crawl, crawl]
      by_cases hb : st.visited.length ≥ mp
      · rw [if_pos hb, if_pos hb]
      · rw [if_neg hb, if_neg hb]
        by_cases hv : url ∈ st.visited ∨ d < 0
        · rw [if_pos hv, if_pos hv]
        · rw [if_neg hv, if_neg hv]
          have hd0 : ¬ d < 0 := fun h => hv (Or.inr h)
          have hIHl : ∀ st2 links,
              crawlList web1 mp st2 links (d - 1) = crawlList web2 mp st2 links (d - 1) := by
            exact (IH (n - 1) (by omega) (d - 1) (by omega)).2
          have ha := hagree url
          cases hw1 : web1 url with
          | transportError m1 =>
            cases hw2 : web2 url with
            | transportError m2 =>
              rw [hw1, hw2] at ha
              simp only [sameExceptStatus] at ha
              simp only [hw1, hw2, ha]
            | page pd2 =>
              rw [hw1, hw2] at ha
              simp only [sameExceptStatus] at ha
          | page pd1 =>
            cases hw2 : web2 url with
            | transportError m2 =>
              rw [hw1, hw2] at ha
              simp only [sameExceptStatus] at ha
            | page pd2 =>
              rw [hw1, hw2] at ha
              simp only [sameExceptStatus] at ha
              obtain ⟨hl, hx⟩ := ha
              simp only [hw1, hw2, ← hl, ← hx]
              cases hex : pd1.extraction with
              | parseError m => rfl
              | nonList => exact hIHl _ _
              | contactList cs => exact hIHl _ _
    refine ⟨hc, ?_⟩
    intro st links
    induction links generalizing st with
    | nil => rw [crawlList, crawlList]
    | cons l ls ihl =>
      rw [crawlList, crawlList]
      by_cases hb : st.visited.length ≥ mp
      · rw [if_pos hb, if_pos hb]
      · rw [if_neg hb, if_neg hb]
        rw [hc st l]
        exact ihl _

theorem crawl_status_blind (web1 web2 : String → FetchOutcome) (mp : Nat)
    (hagree : ∀ u, sameExceptStatus (web1 u) (web2 u))
    (st : CrawlState) (url : String) (d : Int) :
    crawl web1 mp st url d = crawl web2 mp st url d :=
  (crawl_status_blind_aux web1 web2 mp hagree ((d + 1).toNat) d le_rfl).1 st url

theorem run_crawler_status_blind (web1 web2 : String → FetchOutcome)
    (hagree : ∀ u, sameExceptStatus (web1 u) (web2 u))
    (startUrl : String) (d : Int) (mp : Nat) (t : String) (s0 : Session) :
    run_crawler web1 startUrl d mp t s0 = run_crawler web2 startUrl d mp t s0 := by
  simp only [run_crawler]
  rw [crawl_status_blind web1 web2 mp hagree _ startUrl d]

theorem crawl_absorbs_aux (web : String → FetchOutcome) (mp : Nat)
    (u : String) (pd : PageData) (cs : List Contact)
    (hw : web u = .page pd) (hx : pd.extraction = .contactList cs) :
    ∀ n : Nat, ∀ d : Int, (d + 1).toNat ≤ n →
      (∀ st url, u ∈ (crawl web mp st url d).visited → u ∉ st.visited →
        ∀ c ∈ cs, c ∈ (crawl web mp st url d).all_contacts) ∧
      (∀ st links, u ∈ (crawlList web mp st links d).visited → u ∉ st.visited →
        ∀ c ∈ cs, c ∈ (crawlList web mp st links d).all_contacts) := by
  intro n
  induction n using Nat.strong_induction_on with
  | _ n IH =>
    intro d hd
    have hcr : ∀ st url, u ∈ (crawl web mp st url d).visited → u ∉ st.visited →
        ∀ c ∈ cs, c ∈ (crawl web mp st url d).all_contacts := by
      intro st url hu hnotin c hc
      rw [crawl] at hu ⊢
      by_cases hb : st.visited.length ≥ mp
      · rw [if_pos hb] at hu ⊢
        simp [log_update] at hu
        exact absurd hu hnotin
      · rw [if_neg hb] at hu ⊢
        by_cases hg : url ∈ st.visited ∨ d < 0
        · rw [if_pos hg] at hu ⊢
          exact absurd hu hnotin
        · rw [if_neg hg] at hu ⊢
          have hd0 : ¬ d < 0 := fun hlt => hg (Or.inr hlt)
          by_cases hequ : u = url
          · subst hequ
            simp only [hw, hx] at hu ⊢
            obtain ⟨-, ⟨tc, htc⟩, -⟩ := crawlList_stepOk web mp _ pd.links (d - 1)
            rw [htc]
            exact List.mem_append_left _
              (by simp [update_progress, update_contacts, log_update, hc])
          · have hIHl := fun hnn => (IH (n - 1) hnn (d - 1) (by omega)).2
            have hn1 : n - 1 < n := by omega
            cases hwu : web url with
            | transportError m =>
              simp only [hwu] at hu ⊢
              simp [log_update] at hu
              rcases hu with hu | hu
              · exact absurd hu hnotin
              · exact absurd hu hequ
            | page pd2 =>
              cases hex : pd2.extraction with
              | parseError m =>
                simp only [hwu, hex] at hu ⊢
                simp [log_update] at hu
                rcases hu with hu | hu
                · exact absurd hu hnotin
                · exact absurd hu hequ
              | nonList =>
                simp only [hwu, hex] at hu ⊢
                refine hIHl hn1 _ pd2.links hu ?_ c hc
                simp [update_progress, log_update, hnotin, hequ]
              | contactList cs2 =>
                simp only [hwu, hex] at hu ⊢
                refine hIHl hn1 _ pd2.links hu ?_ c hc
                simp [update_progress, update_contacts, log_update, hnotin, hequ]
    refine ⟨hcr, ?_⟩
    intro st links
    induction links generalizing st with
    | nil =>
      intro hu hnotin c hc
      rw [crawlList] at hu
      exact absurd hu hnotin
    | cons l ls ihl =>
      intro hu hnotin c hc
      rw [crawlList] at hu ⊢
      by_cases hb : st.visited.length ≥ mp
      · rw [if_pos hb] at hu ⊢
        simp [log_update] at hu
        exact absurd hu hnotin
      · rw [if_neg hb] at hu ⊢
        by_cases hin : u ∈ (crawl web mp st l d).visited
        · have hmem := hcr st l hin hnotin c hc
          obtain ⟨-, ⟨tc, htc⟩, -⟩ := crawlList_stepOk web mp (crawl web mp st l d) ls d
          rw [htc]
          exact List.mem_append_left _ hmem
        · exact ihl _ hu hin c hc

theorem crawl_absorbs (web : String → FetchOutcome) (mp : Nat)
    (st : CrawlState) (url : String) (d : Int)
    (u : String) (pd : PageData) (cs : List Contact)
    (hw : web u = .page pd) (hx : pd.extraction = .contactList cs)
    (hu : u ∈ (crawl web mp st url d).visited) (hnotin : u ∉ st.visited)
    (c : Contact) (hc : c ∈ cs) :
    c ∈ (crawl web mp st url d).all_contacts :=
  (crawl_absorbs_aux web mp u pd cs hw hx ((d + 1).toNat) d le_rfl).1
    st url hu hnotin c hc

theorem dedupGo_mem : ∀ (l : List Contact) (seen : List String) (c : Contact),
    c ∈ dedupGo l seen →
      ∃ e, c.email = some e ∧ pyNormalize e ≠ "" ∧ pyNormalize e ∉ seen := by
  intro l
  induction l with
  | nil => intro seen c h; simp [dedupGo] at h
  | cons a as ih =>
    intro seen c h
    simp only [dedupGo] at h
    cases hae : a.email with
    | none =>
      rw [hae] at h
      exact ih seen c h
    | some e =>
      rw [hae] at h
      simp only at h
      split at h
      · next hcond =>
        have hcond2 : pyNormalize e ≠ "" ∧ pyNormalize e ∉ seen := by simpa using hcond
        rcases List.mem_cons.mp h with hca | hct
        · subst hca
          exact ⟨e, hae, hcond2.1, hcond2.2⟩
        · obtain ⟨e2, he2, hne2, hns2⟩ := ih _ c hct
          exact ⟨e2, he2, hne2, fun hm => hns2 (List.mem_cons_of_mem _ hm)⟩
      · exact ih seen c h

theorem dedupGo_sublist : ∀ (l : List Contact) (seen : List String),
    (dedupGo l seen).Sublist l := by
  intro l
  induction l with
  | nil => intro seen; simp [dedupGo]
  | cons a as ih =>
    intro seen
    simp only [dedupGo]
    cases a.email with
    | none => exact (ih seen).cons a
    | some e =>
      simp only
      split
      · exact (ih _).cons₂ a
      · exact (ih seen).cons a

theorem dedupGo_nodup : ∀ (l : List Contact) (seen : List String),
    ((dedupGo l seen).map normEmail).Nodup := by
  intro l
  induction l with
  | nil => intro seen; simp [dedupGo]
  | cons a as ih =>
    intro seen
    simp only [dedupGo]
    cases hae : a.email with
    | none => exact ih seen
    | some e =>
      simp only
      split
      · next hcond =>
        simp only [List.map_cons, List.nodup_cons]
        refine ⟨?_, ih _⟩
        intro hmem
        rcases List.mem_map.mp hmem with ⟨c, hc, hceq⟩
        obtain ⟨e2, he2, hne2, hns2⟩ := dedupGo_mem as _ c hc
        have hc2 : normEmail c = some (pyNormalize e2) := by simp [normEmail, he2]
        have ha2 : normEmail a = some (pyNormalize e) := by simp [normEmail, hae]
        rw [hc2, ha2] at hceq
        have heq : pyNormalize e2 = pyNormalize e := Option.some.inj hceq
        exact hns2 (heq ▸ List.mem_cons_self _ _)
      · exact ih seen

theorem dedupGo_complete : ∀ (l : List Contact) (seen : List String) (c : Contact)
    (e : String), c ∈ l → c.email = some e → pyNormalize e ≠ "" →
      pyNormalize e ∉ seen →
      ∃ c2 ∈ dedupGo l seen, normEmail c2 = some (pyNormalize e) := by
  intro l
  induction l with
  | nil => intro seen c e hc; simp at hc
  | cons a as ih =>
    intro seen c e hc he hne hns
    simp only [dedupGo]
    rcases List.mem_cons.mp hc with rfl | hct
    · rw [he]
      simp only
      rw [if_pos]
      · exact ⟨c, List.mem_cons_self _ _, by simp [normEmail, he]⟩
      · have h1 : (pyNormalize e != "") = true := by simpa using hne
        have h2 : seen.contains (pyNormalize e) = false := by simpa using hns
        rw [h1, h2]
        rfl
    · cases hae : a.email with
      | none => exact ih seen c e hct he hne hns
      | some e2 =>
        simp only
        split
        · by_cases heq : pyNormalize e2 = pyNormalize e
          · exact ⟨a, List.mem_cons_self _ _, by simp [normEmail, hae, heq]⟩
          · obtain ⟨c2, hc2, hc2eq⟩ := ih _ c e hct he hne (by
              intro hm
              rcases List.mem_cons.mp hm with h | h
              · exact heq h.symm
              · exact hns h)
            exact ⟨c2, List.mem_cons_of_mem _ hc2, hc2eq⟩
        · exact ih seen c e hct he hne hns

theorem dedupGo_first : ∀ (l : List Contact) (seen : List String) (c : Contact),
    c ∈ dedupGo l seen →
      l.find? (fun x => normEmail x == normEmail c) = some c := by
  intro l
  induction l with
  | nil => intro seen c h; simp [dedupGo] at h
  | cons a as ih =>
    intro seen c h
    simp only [dedupGo] at h
    cases hae : a.email with
    | none =>
      rw [hae] at h
      obtain ⟨e2, he2, -, -⟩ := dedupGo_mem as seen c h
      rw [List.find?_cons_of_neg, ih seen c h]
      simp [normEmail, hae, he2]
    | some e =>
      rw [hae] at h
      simp only at h
      split at h
      · next hcond =>
        rcases List.mem_cons.mp h with hca | hct
        · subst hca
          rw [List.find?_cons_of_pos]
          simp
        · obtain ⟨e2, he2, hne2, hns2⟩ := dedupGo_mem as _ c hct
          have hdiff : pyNormalize e ≠ pyNormalize e2 := by
            intro hx
            exact hns2 (hx ▸ List.mem_cons_self _ _)
          rw [List.find?_cons_of_neg, ih _ c hct]
          simp [normEmail, hae, he2, hdiff]
      · next hcond =>
        obtain ⟨e2, he2, hne2, hns2⟩ := dedupGo_mem as seen c h
        have hdis : pyNormalize e = "" ∨ pyNormalize e ∈ seen := by
          by_contra hno
          push_neg at hno
          apply hcond
          have h1 : (pyNormalize e != "") = true := by simpa using hno.1
          have h2 : seen.contains (pyNormalize e) = false := by simpa using hno.2
          rw [h1, h2]
          rfl
        have hdiff : pyNormalize e ≠ pyNormalize e2 := by
          intro hx
          rcases hdis with h0 | h0
          · exact hne2 (hx.symm.trans h0)
          · exact hns2 (hx ▸ h0)
        rw [List.find?_cons_of_neg, ih seen c h]
        simp [normEmail, hae, he2, hdiff]

theorem run_crawler_session_contacts (web : String → FetchOutcome) (startUrl : String)
    (d : Int) (mp : Nat) (t : String) (s0 : Session) :
    (run_crawler web startUrl d mp t s0).session.contacts
      = (run_crawler web startUrl d mp t s0).state.all_contacts := by
  simp [run_crawler, applySessionUpdate, completedUpdate]

theorem run_crawler_status (web : String → FetchOutcome) (startUrl : String)
    (d : Int) (mp : Nat) (t : String) (s0 : Session) :
    (run_crawler web startUrl d mp t s0).session.status = "completed" := by
  simp [run_crawler, applySessionUpdate, completedUpdate]

/-! Theorems settling the claims. -/

/-- Claim C1: for every crawl session run with max_pages = N, every progress
snapshot written to the session store — the per-page snapshots recorded in
the `progressWrites` ledger and the final snapshot persisted on completion —
has pages_visited ≤ N, for every oracle (link-graph shape), start URL, depth
and initial session. -/
theorem crawler_pages_visited_bounded (web : String → FetchOutcome) (startUrl : String)
    (d : Int) (mp : Nat) (t : String) (s0 : Session) :
    (∀ p ∈ (run_crawler web startUrl d mp t s0).state.progressWrites,
        p.pages_visited ≤ mp) ∧
    (run_crawler web startUrl d mp t s0).session.progress.pages_visited ≤ mp := by
  unfold run_crawler
  set st1 := log_update {}
    ["StartingCrawler from: " ++ startUrl ++ " | InitialDepth: " ++ toString d
      ++ " | MaxPages: " ++ toString mp] with hst1
  obtain ⟨⟨v, hv⟩, -, ⟨p, hp, hb⟩, hlen, -⟩ := crawl_stepOk web mp st1 startUrl d
  constructor
  · intro q hq
    simp only [log_update] at hq
    have hpw : st1.progressWrites = [] := by simp [hst1, log_update]
    rw [hp, hpw] at hq
    simpa using hb q (by simpa using hq)
  · simp only [applySessionUpdate, completedUpdate, log_update]
    have : st1.visited = [] := by simp [hst1, log_update]
    simp_all

/-- Claim C2 counterexample: a record with no `email` key (phone only) is
dropped by the end-of-run dedup, not kept as-is — the dedup of the singleton
list is empty. -/
theorem crawler_dedup_drops_no_email_records :
    cNoEmail ∉ uniqueContacts [cNoEmail] ∧ uniqueContacts [cNoEmail] = [] := by
  decide

/-- Claim C2 amended: in the end-of-run dedup, records without an email —
and records whose lower-cased trimmed email is empty or already seen — are
dropped; the unique set is exactly the subsequence of the input consisting of
the first record for each distinct non-empty normalized email: every kept
record has a non-empty normalized email, the kept records form a sublist with
pairwise-distinct normalized emails, every non-empty normalized email present
in the input is represented, and each kept record is the first record of the
input carrying its normalized email. -/
theorem crawler_dedup_characterization (l : List Contact) :
    (∀ c ∈ uniqueContacts l, ∃ e, c.email = some e ∧ pyNormalize e ≠ "") ∧
    (uniqueContacts l).Sublist l ∧
    ((uniqueContacts l).map normEmail).Nodup ∧
    (∀ c ∈ l, ∀ e, c.email = some e → pyNormalize e ≠ "" →
        ∃ c2 ∈ uniqueContacts l, normEmail c2 = some (pyNormalize e)) ∧
    (∀ c ∈ uniqueContacts l, l.find? (fun x => normEmail x == normEmail c) = some c) := by
  refine ⟨?_, dedupGo_sublist l [], dedupGo_nodup l [], ?_, ?_⟩
  · intro c hc
    obtain ⟨e, he, hne, -⟩ := dedupGo_mem l [] c hc
    exact ⟨e, he, hne⟩
  · intro c hc e he hne
    exact dedupGo_complete l [] c e hc he hne (by simp)
  · intro c hc
    exact dedupGo_first l [] c hc

/-- Claim C3 counterexample: a contact record returned by the extraction
collaborator with neither email nor phone is persisted in the session's
contacts list — the crawler performs no validation before storage. -/
theorem crawler_stores_contact_without_email_or_phone :
    cInvalid ∈ (run_crawler webC3 urlA 1 5 "t" {}).session.contacts ∧
    cInvalid.email = none ∧ cInvalid.phone = none := by
  refine ⟨?_, rfl, rfl⟩
  simp [run_crawler, crawl, crawlList, webC3, urlA, log_update, update_progress,
    update_contacts, applySessionUpdate, completedUpdate, runningUpdate]

/-- Claim C3 amended: records lacking both email and phone are not
discarded. For every page fetched during the run — every URL in the final
visited set — whose response parses to a contact list, every record of that
list, including records with neither email nor phone, appears in the
session's persisted contacts list. -/
theorem crawler_stores_all_extracted_contacts (web : String → FetchOutcome)
    (startUrl : String) (d : Int) (mp : Nat) (t : String) (s0 : Session)
    (u : String) (pd : PageData) (cs : List Contact)
    (hu : u ∈ (run_crawler web startUrl d mp t s0).state.visited)
    (hw : web u = .page pd) (hx : pd.extraction = .contactList cs)
    (c : Contact) (hc : c ∈ cs) :
    c ∈ (run_crawler web startUrl d mp t s0).session.contacts := by
  rw [run_crawler_session_contacts]
  simp only [run_crawler, log_update] at hu ⊢
  refine crawl_absorbs web mp _ startUrl d u pd cs hw hx hu ?_ c hc
  simp

/-- Witness for the amended claim C3 at a concrete one-page site whose
extraction returns a record with neither email nor phone. -/
theorem crawler_stores_all_extracted_contacts_witness :
    cInvalid ∈ (run_crawler webC3 urlA 0 3 "t" {}).session.contacts :=
  crawler_stores_all_extracted_contacts webC3 urlA 0 3 "t" {} urlA
    { status := 200, links := [], extraction := .contactList [cInvalid] }
    [cInvalid]
    (by simp [run_crawler, crawl, crawlList, webC3, urlA, log_update,
      update_progress, update_contacts])
    rfl rfl cInvalid (by decide)

/-- Claim C4: with depth = D, only pages within D same-host hops of the
start URL are ever fetched: every URL in the final visited set (the set of
URLs on which a fetch was attempted) is reachable from the start URL within
D hops of the oracle's link relation. Contrapositive of the claim: a page
reachable only via paths longer than D hops is never fetched. -/
theorem crawler_depth_enforced (web : String → FetchOutcome) (startUrl : String)
    (D : Nat) (mp : Nat) (t : String) (s0 : Session) (v : String)
    (hv : v ∈ (run_crawler web startUrl (D : Int) mp t s0).state.visited) :
    reachableWithin web D startUrl v = true := by
  simp only [run_crawler, log_update] at hv
  rcases crawl_reach web mp _ startUrl (D : Int) v hv with hmem | ⟨-, hr⟩
  · simp at hmem
  · simpa using hr

/-- Witness for claim C4 at a concrete one-page site: the start URL itself
is fetched and is reachable within 1 hop. -/
theorem crawler_depth_enforced_witness :
    reachableWithin webTriv 1 urlA urlA = true :=
  crawler_depth_enforced webTriv urlA 1 5 "t" {} urlA (by
    simp [run_crawler, crawl, crawlList, webTriv, urlA, log_update,
      update_progress, update_contacts])

/-- Claim C5: a fetch failure is branch-local. First part: when fetching a
page raises a transport error, the traversal marks only that page visited,
appends exactly one error log entry, leaves contacts and progress writes
unchanged, and does not recurse into that page's links; the enclosing link
loop then continues with the remaining sibling links. Second part: a sibling
link enumerated after the failing one is still visited (subject to the page
bound and depth). Third part: the run still reaches status completed. -/
theorem crawler_fetch_failure_branch_local :
    (∀ (web : String → FetchOutcome) (mp : Nat) (st : CrawlState) (b : String)
        (d : Int) (msg : String), web b = .transportError msg →
        st.visited.length < mp → b ∉ st.visited → 0 ≤ d →
        (crawl web mp st b d).visited = st.visited ++ [b] ∧
        (crawl web mp st b d).all_contacts = st.all_contacts ∧
        (crawl web mp st b d).progressWrites = st.progressWrites ∧
        (crawl web mp st b d).log_messages = st.log_messages ++
          [(st.log_counter + 1, String.intercalate " | "
             ["URL: " ++ b,
              "PagesVisited: " ++ toString (st.visited ++ [b]).length,
              "CumulativeContacts: " ++ toString st.all_contacts.length,
              "Error: " ++ msg])] ∧
        (∀ rest, crawlList web mp st (b :: rest) d
            = crawlList web mp (crawl web mp st b d) rest d)) ∧
    (∀ (web : String → FetchOutcome) (mp : Nat) (st : CrawlState) (b c : String)
        (rest : List String) (d : Int) (msg : String), web b = .transportError msg →
        st.visited.length + 1 < mp → b ∉ st.visited → c ∉ st.visited → c ≠ b → 0 ≤ d →
        c ∈ (crawlList web mp st (b :: c :: rest) d).visited) ∧
    (∀ (web : String → FetchOutcome) (startUrl : String) (d : Int) (mp : Nat)
        (t : String) (s0 : Session),
        (run_crawler web startUrl d mp t s0).session.status = "completed") := by
  refine ⟨?_, ?_, fun web startUrl d mp t s0 => run_crawler_status web startUrl d mp t s0⟩
  · intro web mp st b d msg hw h1 h2 h3
    have hfr := crawl_transport_frame web mp st b d msg hw h1 h2 h3
    refine ⟨by rw [hfr]; simp [log_update], by rw [hfr]; simp [log_update],
      by rw [hfr]; simp [log_update], by rw [hfr]; simp [log_update], ?_⟩
    intro rest
    exact crawlList_cons_unfold web mp st b rest d h1
  · intro web mp st b c rest d msg hw h1 h2 hc2 hcb h3
    rw [crawlList_cons_unfold web mp st b (c :: rest) d (by omega)]
    have hfr := crawl_transport_frame web mp st b d msg hw (by omega) h2 h3
    apply crawlList_visits_head
    · rw [hfr]
      simp [log_update]
      omega
    · rw [hfr]
      simp [log_update, hc2, hcb]
    · exact h3

/-- Claim C6 counterexample: a page whose HTTP response has status 404 is
processed as a successfully fetched page — its extracted contact is stored,
a progress snapshot is written for it, and the run completes; no fetch error
is raised for the non-2xx status. -/
theorem crawler_processes_non_2xx_response :
    (run_crawler webC6 urlA 0 5 "t" {}).session.contacts = [c6c] ∧
    (run_crawler webC6 urlA 0 5 "t" {}).state.progressWrites
      = [{ pages_visited := 1, total_contacts := 1, unique_contacts := 1 }] ∧
    (run_crawler webC6 urlA 0 5 "t" {}).session.status = "completed" := by
  refine ⟨?_, ?_, ?_⟩ <;>
    simp [run_crawler, crawl, crawlList, webC6, urlA, log_update, update_progress,
      update_contacts, applySessionUpdate, completedUpdate, runningUpdate,
      runningUniqueEmails, c6c]

/-- Claim C6 amended: the fetch fails only on transport errors; the HTTP
status code of a response is never consulted, so a non-2xx response is
processed exactly like a 2xx response: two oracles that agree up to status
codes produce identical traversals and identical runs. -/
theorem crawler_ignores_http_status :
    (∀ (web1 web2 : String → FetchOutcome) (mp : Nat) (st : CrawlState)
        (url : String) (d : Int), (∀ u, sameExceptStatus (web1 u) (web2 u)) →
        crawl web1 mp st url d = crawl web2 mp st url d) ∧
    (∀ (web1 web2 : String → FetchOutcome) (startUrl : String) (d : Int) (mp : Nat)
        (t : String) (s0 : Session), (∀ u, sameExceptStatus (web1 u) (web2 u)) →
        run_crawler web1 startUrl d mp t s0 = run_crawler web2 startUrl d mp t s0) := by
  constructor
  · intro web1 web2 mp st url d hagree
    exact crawl_status_blind web1 web2 mp hagree st url d
  · intro web1 web2 startUrl d mp t s0 hagree
    exact run_crawler_status_blind web1 web2 hagree startUrl d mp t s0

/-- Claim C7: at the end of any run, the keys of the persisted logs mapping
form, in order, the contiguous sequence 1..K with no gaps, where K is the
number of log entries emitted; each `log_update` increments the ordinal by
exactly one, which is what the preserved `LogKeysOk` invariant records. -/
theorem crawler_log_keys_contiguous (web : String → FetchOutcome) (startUrl : String)
    (d : Int) (mp : Nat) (t : String) (s0 : Session) :
    (run_crawler web startUrl d mp t s0).session.logs.map Prod.fst
      = List.range' 1 (run_crawler web startUrl d mp t s0).session.logs.length := by
  rw [run_crawler_session_logs]
  have h := run_crawler_logs_ok web startUrl d mp t s0
  rw [logKeysOk_length h]
  exact h

/-- Claim C8 counterexample: for an owner id with no user record, the crawl
result query does not report not-found: the ValueError raised by get_user is
caught by the blanket handler and surfaced as a 500 server error carrying the
user-not-found message. -/
theorem crawler_results_missing_owner_server_error :
    get_crawler_results emptyDb "u1" "s1"
      = .serverError "User with ID u1 not found" := by
  decide

/-- Claim C8 amended: the crawl result query returns the full session when
the owner exists and has the session, reports not-found only when the owner
exists but lacks the session, and for a missing owner returns a 500 server
error with the user-not-found message — a different error class than
not-found. -/
theorem crawler_results_characterization (db : String → Option UserDoc)
    (uid sid : String) :
    (db uid = none →
      get_crawler_results db uid sid
        = .serverError ("User with ID " ++ uid ++ " not found")) ∧
    (∀ u, db uid = some u → u.crawler_sessions.lookup sid = none →
      get_crawler_results db uid sid = .notFound "Crawler session not found") ∧
    (∀ u s, db uid = some u → u.crawler_sessions.lookup sid = some s →
      get_crawler_results db uid sid = .ok s) := by
  refine ⟨?_, ?_, ?_⟩
  · intro h
    simp [get_crawler_results, get_crawler_session, get_user, h, Except.map]
  · intro u h1 h2
    simp [get_crawler_results, get_crawler_session, get_user, h1, h2, Except.map]
  · intro u sess h1 h2
    simp [get_crawler_results, get_crawler_session, get_user, h1, h2, Except.map]

/-- Claim C9: end_time is written only on the transition to completed. The
failed-transition update sets only the status field and leaves end_time,
completed_at, progress, contacts, logs and the configuration fields
unchanged; the running-transition update also leaves end_time unchanged; the
completed update — the one the run performs — sets end_time. -/
theorem crawler_failed_update_frame (s : Session) (tm cm : String)
    (st : CrawlState) (uniq : List Contact) (web : String → FetchOutcome)
    (startUrl : String) (d : Int) (mp : Nat) (s0 : Session) :
    (applySessionUpdate s failedUpdate).status = "failed" ∧
    (applySessionUpdate s failedUpdate).end_time = s.end_time ∧
    (applySessionUpdate s failedUpdate).completed_at = s.completed_at ∧
    (applySessionUpdate s failedUpdate).progress = s.progress ∧
    (applySessionUpdate s failedUpdate).contacts = s.contacts ∧
    (applySessionUpdate s failedUpdate).logs = s.logs ∧
    (applySessionUpdate s failedUpdate).start_url = s.start_url ∧
    (applySessionUpdate s failedUpdate).start_time = s.start_time ∧
    (applySessionUpdate s runningUpdate).end_time = s.end_time ∧
    (applySessionUpdate s (completedUpdate tm cm st uniq)).end_time = some tm ∧
    (run_crawler web startUrl d mp tm s0).session.end_time = some tm := by
  refine ⟨rfl, rfl, rfl, rfl, rfl, rfl, rfl, rfl, rfl, rfl, ?_⟩
  simp [run_crawler, applySessionUpdate, completedUpdate]

/-- Claim C10: unique_contacts is computed by two different functions. The
mid-run snapshots count distinct raw non-empty email strings (case- and
whitespace-sensitive), while the completed snapshot counts the deduplicated
list keyed by lower-cased trimmed email; on a page yielding emails
differing only in case and trailing whitespace, the persisted value
strictly drops from 2 (last running snapshot) to 1 (completed snapshot). -/
theorem crawler_unique_contacts_counter_drop :
    (runningUniqueEmails [c10a, c10b]).length = 2 ∧
    (uniqueContacts [c10a, c10b]).length = 1 ∧
    (run_crawler webC10 urlA 0 5 "t" {}).state.progressWrites
      = [{ pages_visited := 1, total_contacts := 2, unique_contacts := 2 }] ∧
    (run_crawler webC10 urlA 0 5 "t" {}).session.progress
      = { pages_visited := 1, total_contacts := 2, unique_contacts := 1 } ∧
    (∀ p ∈ (run_crawler webC10 urlA 0 5 "t" {}).state.progressWrites,
      (run_crawler webC10 urlA 0 5 "t" {}).session.progress.unique_contacts
        < p.unique_contacts) := by
  refine ⟨by decide, by decide, ?_, ?_, ?_⟩ <;>
    simp [run_crawler, crawl, crawlList, webC10, urlA, log_update, update_progress,
      update_contacts, applySessionUpdate, completedUpdate, runningUpdate,
      runningUniqueEmails, uniqueContacts, dedupGo, c10a, c10b, pyNormalize,
      pyLower, pyStrip]

end Crushbase
